import Mathlib

/-!
Shallow embedding of the real-time console stream controller of
`resources/scripts/components/server/Console.tsx` (pterodactyl panel fork).

The component is a React function component; its behaviour relevant to the
verified properties is captured as pure functions over explicit state:

* line rendering (`handleConsoleOutput`, `handleTransferStatus`,
  `handleDaemonErrorOutput`, `handlePowerChangeEvent`), including a faithful
  model of the JavaScript `line.replace(/(?:\r\n|\r|\n)$/im, '')` call
  (multiline flag, first match only);
* command history (`usePersistedState` list, prepend + `slice(0, 32)`);
* the keyboard handler `handleCommandKeyDown` as a step function on a
  console state (history, history index, input field value, sent requests);
* the `useEffect [connected, instance]` lifecycle as an activation /
  deactivation pair on a router state, plus an action trace for ordering.
-/

namespace Panel

/-- `TERMINAL_PRELUDE` from Console.tsx line 69. -/
def TERMINAL_PRELUDE : String := "\u001b[1m\u001b[33mcontainer@pterodactyl~ \u001b[0m"

/-- The ANSI reset marker appended by every rendering handler. -/
def RESET : String := "\u001b[0m"

/-- The ANSI markers prepended by the daemon-error handler (bold, red background). -/
def ERROR_MARKERS : String := "\u001b[1m\u001b[41m"

/-- A JavaScript LineTerminator character (ECMAScript: LF, CR, LS, PS).
In multiline mode, `$` matches at end of input or right before one of these. -/
def isLineTerm (c : Char) : Bool :=
  c = '\n' || c = '\r' || c = Char.ofNat 0x2028 || c = Char.ofNat 0x2029

/-- The multiline `$` anchor: holds at a position whose remaining input is
empty or begins with a LineTerminator. -/
def atLineEnd : List Char → Bool
  | [] => true
  | c :: _ => isLineTerm c

/-- Model of `line.replace(/(?:\r\n|\r|\n)$/im, '')` on the character list:
scan left to right; at each position try the alternatives `\r\n`, `\r`, `\n`
in order, each followed by the multiline `$` anchor; remove the first match
(no global flag, so only the first). In the `'\r' :: '\n' :: rest` case with
`rest` not at a line end, the engine backtracks to the `\r` alternative and
the `$` anchor succeeds before the `'\n'`, so the lone `\r` is removed. -/
def stripFirstMatch : List Char → List Char
  | [] => []
  | c :: rest =>
      if c = '\r' then
        match rest with
        | '\n' :: rest2 => if atLineEnd rest2 then rest2 else '\n' :: rest2
        | _ => if atLineEnd rest then rest else '\r' :: stripFirstMatch rest
      else if c = '\n' then
        if atLineEnd rest then rest else '\n' :: stripFirstMatch rest
      else c :: stripFirstMatch rest

/-- The regex replacement lifted to `String`. -/
def stripTerm (s : String) : String := String.mk (stripFirstMatch s.data)

/-- Removal of a single trailing line terminator (`\r\n`, `\r` or `\n`) from
the very end of a character list, every other character untouched. -/
def dropTrailingTerm (l : List Char) : List Char :=
  match l.reverse with
  | '\n' :: '\r' :: rest => rest.reverse
  | '\n' :: rest => rest.reverse
  | '\r' :: rest => rest.reverse
  | _ => l

/-- Modelled from the spec: strip a single trailing line terminator
(`\r\n`, `\r` or `\n`) from the very end of the string, leaving every other
character untouched. This is the spec's description of the rendering rule
("append raw line verbatim, with any trailing single line-terminator
stripped"); it is compared against `stripTerm`, the translation of the code. -/
def specStripTrailing (s : String) : String := String.mk (dropTrailingTerm s.data)

/-- `handleConsoleOutput` (Console.tsx lines 84-86): optional prelude, the
payload with the regex replacement applied, then the ANSI reset. The string
is handed to `terminal.writeln`, i.e. it is the rendered line. -/
def handleConsoleOutput (line : String) (withPrelude : Bool) : String :=
  (if withPrelude then TERMINAL_PRELUDE else "") ++ stripTerm line ++ RESET

/-- `handleTransferStatus` (Console.tsx lines 88-99) as the list of lines it
writes: one fixed notice for "failure", one for "archive", nothing otherwise. -/
def handleTransferStatus (status : String) : List String :=
  if status = "failure" then
    [TERMINAL_PRELUDE ++ "Transfer has failed." ++ RESET]
  else if status = "archive" then
    [TERMINAL_PRELUDE ++ "Server has been archived successfully, attempting connection to target node.." ++ RESET]
  else []

/-- `handleDaemonErrorOutput` (Console.tsx lines 101-103). -/
def handleDaemonErrorOutput (line : String) : String :=
  TERMINAL_PRELUDE ++ ERROR_MARKERS ++ stripTerm line ++ RESET

/-- `handlePowerChangeEvent` (Console.tsx lines 105-107). -/
def handlePowerChangeEvent (state : String) : String :=
  TERMINAL_PRELUDE ++ "Server marked as " ++ state ++ "..." ++ RESET

/-- `[command, ...prevHistory].slice(0, 32)` (Console.tsx line 130). -/
def appendHistory (command : String) (prevHistory : List String) : List String :=
  (command :: prevHistory).take 32

/-- `history![i] || ''`: the stored entry at a JavaScript index, with
`undefined` (out of range) and the empty string both becoming `''`. -/
def historyAt (h : List String) (i : Int) : String :=
  if 0 ≤ i then h.getD i.toNat "" else ""

/-- The keys `handleCommandKeyDown` distinguishes. -/
inductive Key
  | arrowUp
  | arrowDown
  | enter
  | other
deriving DecidableEq

/-- The state read and written by `handleCommandKeyDown`: the persisted
history, the history cursor (`historyIndex`, a `useState (-1)`), the input
field's current value, and the requests sent on the socket instance. -/
structure ConsoleState where
  history : List String
  historyIndex : Int
  value : String
  sent : List (String × String)
deriving DecidableEq

/-- `handleCommandKeyDown` (Console.tsx lines 109-136) as a step function.
`hasInstance` models the truthiness of `instance` in
`instance && instance.send('send command', command)`. A single event carries
a single key, so the three `if` branches of the source are exclusive. -/
def handleCommandKeyDown (hasInstance : Bool) (key : Key) (st : ConsoleState) : ConsoleState :=
  match key with
  | .arrowUp =>
      let newIndex := min (st.historyIndex + 1) ((st.history.length : Int) - 1)
      { st with historyIndex := newIndex, value := historyAt st.history newIndex }
  | .arrowDown =>
      let newIndex := max (st.historyIndex - 1) (-1)
      { st with historyIndex := newIndex, value := historyAt st.history newIndex }
  | .enter =>
      let command := st.value
      if 0 < command.length then
        { st with
          history := appendHistory command st.history
          historyIndex := -1
          sent := if hasInstance then st.sent ++ [("send command", command)] else st.sent
          value := "" }
      else st
  | .other => st

/-- Modelled from the spec: the string values of the `SocketEvent` constants
used as keys of the `listeners` record (Console.tsx lines 173-181); the
`events` module itself is outside the provided sources, and §6 of the spec
enumerates the recognized inbound event names. -/
def recognizedEvents : List String :=
  ["status", "console output", "install output", "transfer logs",
   "transfer status", "daemon message", "daemon error"]

/-- Modelled from the spec: the value of `SocketRequest.SEND_LOGS`, the
zero-payload replay-recent-logs request issued on activation (§6 of the spec;
the `events` module is outside the provided sources). -/
def SEND_LOGS : String := "send logs"

/-- The `listeners` record of the effect (Console.tsx lines 173-181): maps an
event name to the lines its handler writes on a given payload. Unrecognized
names have no entry. -/
def dispatch (event : String) (payload : String) : List String :=
  if event = "status" then [handlePowerChangeEvent payload]
  else if event = "console output" then [handleConsoleOutput payload false]
  else if event = "install output" then [handleConsoleOutput payload false]
  else if event = "transfer logs" then [handleConsoleOutput payload false]
  else if event = "transfer status" then handleTransferStatus payload
  else if event = "daemon message" then [handleConsoleOutput payload true]
  else if event = "daemon error" then [handleDaemonErrorOutput payload]
  else []

/-- The state touched by the `useEffect [connected, instance]` block:
the listeners registered on the socket instance (each tagged with the
activation — render — that created its handler closure, since every render
builds a fresh `listeners` record), the terminal's visible buffer, and the
requests sent. -/
structure RouterState where
  listeners : List (String × Nat)
  buffer : List String
  sent : List String
deriving DecidableEq

/-- The effect body (Console.tsx lines 183-193), run when
`connected && instance` holds: clear the terminal unless the server is being
transferred, register one listener per key of the record, send the
replay-logs request. `id` tags this activation's handler closures. -/
def activate (id : Nat) (isTransferring : Bool) (st : RouterState) : RouterState :=
  { listeners := st.listeners ++ recognizedEvents.map (fun e => (e, id))
    buffer := if isTransferring then st.buffer else []
    sent := st.sent ++ [SEND_LOGS] }

/-- The effect cleanup (Console.tsx lines 195-201): remove, per event name,
the handler closure of activation `id`. `removeListener` drops the first
matching registration, as an event emitter does. -/
def deactivate (id : Nat) (st : RouterState) : RouterState :=
  { st with
    listeners := recognizedEvents.foldl (fun ls e => ls.erase (e, id)) st.listeners }

/-- Delivery of an inbound event: every listener registered for that event
name fires, each appending the lines its handler writes. -/
def emit (event payload : String) (st : RouterState) : RouterState :=
  { st with
    buffer := st.buffer ++
      (st.listeners.filter (fun p => p.1 = event)).flatMap (fun _ => dispatch event payload) }

/-- One side effect of the lifecycle effect, for the ordering claim. -/
inductive Action
  | clearBuffer
  | addListener (event : String)
  | sendRequest (req : String)
  | removeListener (event : String)
deriving DecidableEq

/-- Whether an action registers a listener. -/
def Action.isAdd : Action → Bool
  | .addListener _ => true
  | _ => false

/-- Whether an action sends an outbound request. -/
def Action.isSend : Action → Bool
  | .sendRequest _ => true
  | _ => false

/-- Whether an action clears the visible buffer. -/
def Action.isClear : Action → Bool
  | .clearBuffer => true
  | _ => false

/-- The ordered trace of side effects of one run of the effect body
(Console.tsx lines 183-193): nothing unless `connected && instance`;
otherwise the conditional clear, then the seven registrations in record-key
order, then the replay-logs request. -/
def effectBody (connected hasInstance isTransferring : Bool) : List Action :=
  if connected && hasInstance then
    (if !isTransferring then [Action.clearBuffer] else [])
      ++ recognizedEvents.map Action.addListener
      ++ [Action.sendRequest SEND_LOGS]
  else []

/-- The ordered trace of side effects of the effect cleanup
(Console.tsx lines 195-201): the seven removals when an instance was
captured, nothing otherwise. -/
def effectCleanup (hasInstance : Bool) : List Action :=
  if hasInstance then recognizedEvents.map Action.removeListener else []

/-- A concrete 31-entry history, used to instantiate the capacity claims. -/
def sampleHistory31 : List String := (List.range 31).map (fun n => "cmd " ++ toString n)

/-- A concrete sequence of 40 distinct commands. -/
def sampleCommands40 : List String := (List.range 40).map (fun n => "run " ++ toString n)

theorem take_append_take {α : Type} (A B : List α) (n : Nat) :
    (A ++ B.take n).take n = (A ++ B).take n := by
  simp [List.take_append_eq_append_take, List.take_take]

theorem appendHistory_foldl (cs : List String) (h0 : List String) (hne : cs ≠ []) :
    cs.foldl (fun acc c => appendHistory c acc) h0 = (cs.reverse ++ h0).take 32 := by
  induction cs generalizing h0 with
  | nil => exact absurd rfl hne
  | cons c cs ih =>
      by_cases hcs : cs = []
      · subst hcs; simp [appendHistory]
      · rw [List.foldl_cons, ih _ hcs]
        show (cs.reverse ++ appendHistory c h0).take 32 = _
        rw [appendHistory, take_append_take]
        simp

/-- Claim C4: appending a non-empty command `c` to a history `h` yields
`c :: h` truncated to its first 32 elements; hence the history never exceeds
32 entries, appending to a 31-entry history keeps every prior entry in order,
and submitting 40 commands in sequence leaves exactly the 32 most recent,
most-recent-first. -/
theorem claim_C4 (c : String) (h : List String) (cs h0 : List String) :
    appendHistory c h = (c :: h).take 32 ∧
    (appendHistory c h).length ≤ 32 ∧
    (h.length = 31 → appendHistory c h = c :: h) ∧
    (cs.length = 40 →
      cs.foldl (fun acc cmd => appendHistory cmd acc) h0 = cs.reverse.take 32 ∧
      (cs.foldl (fun acc cmd => appendHistory cmd acc) h0).length = 32) := by
  refine ⟨rfl, ?_, ?_, ?_⟩
  · simp [appendHistory]
  · intro h31
    apply List.take_of_length_le
    simp [h31]
  · intro h40
    have hne : cs ≠ [] := by rintro rfl; simp at h40
    have hfold := appendHistory_foldl cs h0 hne
    have hlen : 32 ≤ cs.reverse.length := by simp [h40]
    rw [hfold, List.take_append_of_le_length hlen]
    constructor
    · rfl
    · simp [h40]

/-- Claim C4 witness: instantiated at a concrete 31-entry history and a
concrete sequence of 40 distinct commands. -/
theorem claim_C4_witness :
    appendHistory "x" sampleHistory31 = "x" :: sampleHistory31 ∧
    sampleCommands40.foldl (fun acc cmd => appendHistory cmd acc) [] =
      sampleCommands40.reverse.take 32 := by
  have h := claim_C4 "x" sampleHistory31 sampleCommands40 []
  exact ⟨h.2.2.1 (by decide), (h.2.2.2 (by decide)).1⟩

/-- Claim C5: with an instance attached, Enter on a non-empty input appends
the command to the history (with the 32-cap), resets the cursor to -1, sends
one "send command" request carrying the literal command string, and clears
the input; Enter on an empty input changes nothing and sends nothing. -/
theorem claim_C5 (st : ConsoleState) (b : Bool) :
    (0 < st.value.length →
      handleCommandKeyDown true Key.enter st =
        { history := appendHistory st.value st.history
          historyIndex := -1
          value := ""
          sent := st.sent ++ [("send command", st.value)] }) ∧
    (st.value = "" → handleCommandKeyDown b Key.enter st = st) := by
  constructor
  · intro h
    simp [handleCommandKeyDown, h]
  · intro h
    simp [handleCommandKeyDown, h]

/-- Claim C5 witness: Enter on the non-empty input "say hi" at a concrete
state, and Enter on an empty input at a concrete state. -/
theorem claim_C5_witness :
    handleCommandKeyDown true Key.enter ⟨["ls"], 0, "say hi", []⟩ =
      { history := appendHistory "say hi" ["ls"]
        historyIndex := -1
        value := ""
        sent := [("send command", "say hi")] } ∧
    handleCommandKeyDown true Key.enter ⟨["ls"], 0, "", [("a", "b")]⟩ =
      ⟨["ls"], 0, "", [("a", "b")]⟩ := by
  constructor
  · exact (claim_C5 ⟨["ls"], 0, "say hi", []⟩ true).1 (by decide)
  · exact (claim_C5 ⟨["ls"], 0, "", [("a", "b")]⟩ true).2 rfl

/-- Claim C10: with no instance attached, Enter on a non-empty input still
prepends the command to the history (with the 32-cap), resets the cursor and
clears the input, but the request list is left untouched — the send is
silently skipped. -/
theorem claim_C10 (st : ConsoleState) (h : 0 < st.value.length) :
    handleCommandKeyDown false Key.enter st =
      { history := appendHistory st.value st.history
        historyIndex := -1
        value := ""
        sent := st.sent } := by
  simp [handleCommandKeyDown, h]

/-- Claim C10 witness: a concrete submission with no instance attached. -/
theorem claim_C10_witness :
    handleCommandKeyDown false Key.enter ⟨["ls"], 2, "stop", [("x", "y")]⟩ =
      { history := appendHistory "stop" ["ls"]
        historyIndex := -1
        value := ""
        sent := [("x", "y")] } :=
  claim_C10 ⟨["ls"], 2, "stop", [("x", "y")]⟩ (by decide)

/-- Claim C7: the transfer-status handler writes the prelude-prefixed fixed
failure notice exactly on "failure", the prelude-prefixed fixed archive
notice exactly on "archive", and writes nothing for any other payload. -/
theorem claim_C7 (s : String) (h1 : s ≠ "failure") (h2 : s ≠ "archive") :
    handleTransferStatus "failure" =
      [TERMINAL_PRELUDE ++ "Transfer has failed." ++ RESET] ∧
    handleTransferStatus "archive" =
      [TERMINAL_PRELUDE ++ "Server has been archived successfully, attempting connection to target node.." ++ RESET] ∧
    handleTransferStatus s = [] := by
  refine ⟨rfl, by decide, ?_⟩
  simp [handleTransferStatus, h1, h2]

/-- Claim C7 witness: the unrecognized payload "bogus" writes nothing. -/
theorem claim_C7_witness :
    handleTransferStatus "failure" =
      [TERMINAL_PRELUDE ++ "Transfer has failed." ++ RESET] ∧
    handleTransferStatus "bogus" = [] := by
  have h := claim_C7 "bogus" (by decide) (by decide)
  exact ⟨h.1, h.2.2⟩

/-- Claim C8: every string any rendering handler passes to `writeln` ends
with the ANSI reset marker (so styling never bleeds into following lines),
and the daemon-error payload "boom\n" is rendered with the trailing
terminator stripped, the error styling markers present, and the styling
closed by the reset on the same line. -/
theorem claim_C8 (line state status : String) (b : Bool) :
    (∃ p, handleConsoleOutput line b = p ++ RESET) ∧
    (∃ p, handleDaemonErrorOutput line = p ++ RESET) ∧
    (∃ p, handlePowerChangeEvent state = p ++ RESET) ∧
    (∀ l ∈ handleTransferStatus status, ∃ p, l = p ++ RESET) ∧
    handleDaemonErrorOutput "boom\n" =
      TERMINAL_PRELUDE ++ ERROR_MARKERS ++ "boom" ++ RESET := by
  refine ⟨⟨_, rfl⟩, ⟨_, rfl⟩, ⟨_, rfl⟩, ?_, by decide⟩
  intro l hl
  unfold handleTransferStatus at hl
  split_ifs at hl <;> simp at hl <;> exact ⟨_, hl⟩

/-- Claim C8 witness: the universal statement instantiated at the "boom\n"
daemon-error payload and the "failure" transfer status. -/
theorem claim_C8_witness :
    (∃ p, handleDaemonErrorOutput "boom\n" = p ++ RESET) ∧
    handleDaemonErrorOutput "boom\n" =
      TERMINAL_PRELUDE ++ ERROR_MARKERS ++ "boom" ++ RESET := by
  have h := claim_C8 "boom\n" "running" "failure" true
  exact ⟨h.2.1, h.2.2.2.2⟩

theorem stripFirstMatch_cons (c : Char) (l : List Char) (h : isLineTerm c = false) :
    stripFirstMatch (c :: l) = c :: stripFirstMatch l := by
  have h1 : ¬ c = '\r' := fun hc => by subst hc; simp [isLineTerm] at h
  have h2 : ¬ c = '\n' := fun hc => by subst hc; simp [isLineTerm] at h
  simp [stripFirstMatch, h1, h2]

theorem strip_trailing (core t : List Char)
    (hcore : ∀ c ∈ core, isLineTerm c = false)
    (ht : t = [] ∨ t = ['\n'] ∨ t = ['\r'] ∨ t = ['\r', '\n']) :
    stripFirstMatch (core ++ t) = core := by
  induction core with
  | nil => rcases ht with rfl | rfl | rfl | rfl <;> rfl
  | cons c core ih =>
      have hc := hcore c (by simp)
      rw [List.cons_append, stripFirstMatch_cons c _ hc,
        ih (fun d hd => hcore d (by simp [hd]))]

/-- Claim C6 (amended): the regex strips the leftmost line terminator that
stands at an end-of-line position (multiline anchor, first match only), not
necessarily the trailing one. For every payload whose characters are all
non-terminators except possibly a single trailing terminator (`\n`, `\r` or
`\r\n`), the rendered line is exactly the payload with that trailing
terminator stripped and no other character altered. -/
theorem claim_C6 (core t : List Char)
    (hcore : ∀ c ∈ core, isLineTerm c = false)
    (ht : t = [] ∨ t = ['\n'] ∨ t = ['\r'] ∨ t = ['\r', '\n']) :
    handleConsoleOutput (String.mk (core ++ t)) false = String.mk core ++ RESET ∧
    handleConsoleOutput (String.mk (core ++ t)) true =
      TERMINAL_PRELUDE ++ String.mk core ++ RESET := by
  have hs : stripTerm (String.mk (core ++ t)) = String.mk core := by
    unfold stripTerm
    rw [show (String.mk (core ++ t)).data = core ++ t from rfl,
      strip_trailing core t hcore ht]
  constructor
  · show "" ++ stripTerm (String.mk (core ++ t)) ++ RESET = _
    rw [hs]
    rfl
  · show TERMINAL_PRELUDE ++ stripTerm (String.mk (core ++ t)) ++ RESET = _
    rw [hs]

/-- Claim C6 witness: the concrete payload "boom\n" (core "boom", trailing
"\n") renders as "boom" followed by the reset marker. -/
theorem claim_C6_witness :
    handleConsoleOutput (String.mk ("boom".data ++ ['\n'])) false =
      String.mk "boom".data ++ RESET :=
  (claim_C6 "boom".data ['\n'] (by decide) (by simp)).1

/-- Claim C6 counterexample: the payload "a\n\nb" has no trailing line
terminator, yet the code removes its first "\n" (the multiline anchor
matches before the second "\n"), so a non-trailing character of the payload
is deleted, contradicting the claim as stated. -/
theorem claim_C6_counterexample :
    handleConsoleOutput "a\n\nb" false = "a\nb" ++ RESET ∧
    specStripTrailing "a\n\nb" = "a\n\nb" ∧
    handleConsoleOutput "a\n\nb" false ≠ specStripTrailing "a\n\nb" ++ RESET := by
  refine ⟨by decide, by decide, by decide⟩

theorem nav_step (b : Bool) (k : Key) (st : ConsoleState) (h : List String)
    (hh : st.history = h)
    (hk : k = Key.arrowUp ∨ k = Key.arrowDown)
    (h1 : -1 ≤ st.historyIndex)
    (h2 : st.historyIndex ≤ (h.length : Int) - 1) :
    (handleCommandKeyDown b k st).history = h ∧
    -1 ≤ (handleCommandKeyDown b k st).historyIndex ∧
    (handleCommandKeyDown b k st).historyIndex ≤ (h.length : Int) - 1 ∧
    (handleCommandKeyDown b k st).value =
      historyAt h (handleCommandKeyDown b k st).historyIndex := by
  subst hh
  rcases hk with rfl | rfl
  · refine ⟨rfl, ?_, ?_, rfl⟩
    · exact le_min (by omega) (by omega)
    · exact min_le_right _ _
  · refine ⟨rfl, ?_, ?_, rfl⟩
    · exact le_max_right _ _
    · exact max_le (by omega) (by omega)

theorem nav_fold (b : Bool) (h : List String) (ks : List Key)
    (hks : ∀ k ∈ ks, k = Key.arrowUp ∨ k = Key.arrowDown)
    (st : ConsoleState) (hh : st.history = h)
    (h1 : -1 ≤ st.historyIndex)
    (h2 : st.historyIndex ≤ (h.length : Int) - 1) :
    (List.foldl (fun s k => handleCommandKeyDown b k s) st ks).history = h ∧
    -1 ≤ (List.foldl (fun s k => handleCommandKeyDown b k s) st ks).historyIndex ∧
    (List.foldl (fun s k => handleCommandKeyDown b k s) st ks).historyIndex ≤
      (h.length : Int) - 1 ∧
    (ks ≠ [] →
      (List.foldl (fun s k => handleCommandKeyDown b k s) st ks).value =
        historyAt h (List.foldl (fun s k => handleCommandKeyDown b k s) st ks).historyIndex) := by
  induction ks generalizing st with
  | nil => exact ⟨hh, h1, h2, fun hne => absurd rfl hne⟩
  | cons k ks ih =>
      have hstep := nav_step b k st h hh (hks k (by simp)) h1 h2
      rw [List.foldl_cons]
      by_cases hne : ks = []
      · subst hne
        exact ⟨hstep.1, hstep.2.1, hstep.2.2.1, fun _ => hstep.2.2.2⟩
      · have hrest := ih (fun k2 hk2 => hks k2 (by simp [hk2]))
          (handleCommandKeyDown b k st) hstep.1 hstep.2.1 hstep.2.2.1
        exact ⟨hrest.1, hrest.2.1, hrest.2.2.1, fun _ => hrest.2.2.2 hne⟩

/-- Claim C3: Up sets the cursor to `min(cursor+1, N-1)` and Down to
`max(cursor-1, -1)`; over every sequence of Up/Down keys starting from
cursor -1 the cursor stays within `[-1, N-1]`, and after each key the input
field holds `history[cursor]` when `cursor ≥ 0` and the empty string when
`cursor = -1` or the history is empty. -/
theorem claim_C3 (b : Bool) (h : List String) (v0 : String)
    (s0 : List (String × String)) (ks : List Key)
    (hks : ∀ k ∈ ks, k = Key.arrowUp ∨ k = Key.arrowDown) :
    (∀ st : ConsoleState,
      (handleCommandKeyDown b Key.arrowUp st).historyIndex =
        min (st.historyIndex + 1) ((st.history.length : Int) - 1) ∧
      (handleCommandKeyDown b Key.arrowDown st).historyIndex =
        max (st.historyIndex - 1) (-1)) ∧
    (let final := List.foldl (fun s k => handleCommandKeyDown b k s) ⟨h, -1, v0, s0⟩ ks
     (-1 ≤ final.historyIndex ∧ final.historyIndex ≤ (h.length : Int) - 1) ∧
     (ks ≠ [] →
       (0 ≤ final.historyIndex → final.value = h.getD final.historyIndex.toNat "") ∧
       ((final.historyIndex = -1 ∨ h = []) → final.value = ""))) := by
  refine ⟨fun st => ⟨rfl, rfl⟩, ?_⟩
  have hfold := nav_fold b h ks hks ⟨h, -1, v0, s0⟩ rfl (le_refl (-1))
    (by show (-1 : Int) ≤ (h.length : Int) - 1; omega)
  refine ⟨⟨hfold.2.1, hfold.2.2.1⟩, fun hne => ?_⟩
  have hval := hfold.2.2.2 hne
  constructor
  · intro hpos
    rw [hval, historyAt, if_pos hpos]
  · rintro (hm1 | hnil)
    · rw [hval, hm1, historyAt]
      simp
    · subst hnil
      rw [hval, historyAt]
      rcases Int.le_antisymm hfold.2.2.1 hfold.2.1 with heq
      rw [heq]
      simp

/-- Claim C3 witness: the key sequence Up, Up, Down over the two-entry
history ["one", "two"], starting from cursor -1. -/
theorem claim_C3_witness :
    (∀ st : ConsoleState,
      (handleCommandKeyDown true Key.arrowUp st).historyIndex =
        min (st.historyIndex + 1) ((st.history.length : Int) - 1) ∧
      (handleCommandKeyDown true Key.arrowDown st).historyIndex =
        max (st.historyIndex - 1) (-1)) ∧
    (let final := List.foldl (fun s k => handleCommandKeyDown true k s)
        ⟨["one", "two"], -1, "", []⟩ [Key.arrowUp, Key.arrowUp, Key.arrowDown]
     (-1 ≤ final.historyIndex ∧
       final.historyIndex ≤ ((["one", "two"] : List String).length : Int) - 1) ∧
     ([Key.arrowUp, Key.arrowUp, Key.arrowDown] ≠ ([] : List Key) →
       (0 ≤ final.historyIndex →
         final.value = (["one", "two"] : List String).getD final.historyIndex.toNat "") ∧
       ((final.historyIndex = -1 ∨ (["one", "two"] : List String) = []) →
         final.value = ""))) :=
  claim_C3 true ["one", "two"] "" [] [Key.arrowUp, Key.arrowUp, Key.arrowDown] (by decide)

theorem count_fresh_listener (st : RouterState) (id : Nat) (t : Bool)
    (hfresh : ∀ e, (e, id) ∉ st.listeners) (e : String) (he : e ∈ recognizedEvents) :
    ((activate id t st).listeners.count (e, id)) = 1 := by
  show ((st.listeners ++ recognizedEvents.map (fun x => (x, id))).count (e, id)) = 1
  rw [List.count_append, List.count_eq_zero.mpr (hfresh e), Nat.zero_add]
  have hc : ∀ es : List String, (es.map (fun x => (x, id))).count (e, id) = es.count e := by
    intro es
    induction es with
    | nil => rfl
    | cons x es ih => simp [List.count_cons, ih, Prod.ext_iff]
  have hcount : recognizedEvents.count e = 1 := by fin_cases he <;> decide
  exact (hc recognizedEvents).trans hcount

theorem erase_foldl_cancel (id : Nat) (es : List String) (base : List (String × Nat))
    (hfresh : ∀ e, (e, id) ∉ base) :
    es.foldl (fun ls e => ls.erase (e, id)) (base ++ es.map (fun e => (e, id))) = base := by
  induction es with
  | nil => simp
  | cons e es ih =>
      rw [List.map_cons, List.foldl_cons,
        List.erase_append_right _ (hfresh e), List.erase_cons_head, ih]

theorem emit_of_no_listeners (e p : String) (st : RouterState) (h : st.listeners = []) :
    emit e p st = st := by
  obtain ⟨ls, buf, sq⟩ := st
  simp only at h
  subst h
  simp [emit]

theorem filter_name_once (id : Nat) (e : String) (he : e ∈ recognizedEvents) :
    ((recognizedEvents.map (fun x => (x, id))).filter (fun p => p.1 == e)).length = 1 := by
  fin_cases he <;> simp [recognizedEvents]

/-- Claim C1: an activation with a fresh handler closure registers exactly
one handler per recognized event name and sends exactly one replay-logs
request; the matching deactivation removes exactly the handlers that
activation registered, so starting from an empty listener map the map is
empty again after teardown and emitting any event then mutates nothing. -/
theorem claim_C1 (st : RouterState) (id : Nat) (t : Bool)
    (hfresh : ∀ e, (e, id) ∉ st.listeners) :
    (∀ e ∈ recognizedEvents, (activate id t st).listeners.count (e, id) = 1) ∧
    (activate id t st).sent = st.sent ++ [SEND_LOGS] ∧
    (deactivate id (activate id t st)).listeners = st.listeners ∧
    (st.listeners = [] →
      (deactivate id (activate id t st)).listeners = [] ∧
      (∀ e ∈ recognizedEvents,
        ((activate id t st).listeners.filter (fun p => p.1 == e)).length = 1) ∧
      (∀ e p, emit e p (deactivate id (activate id t st)) =
        deactivate id (activate id t st))) := by
  have hdeact : (deactivate id (activate id t st)).listeners = st.listeners := by
    show recognizedEvents.foldl (fun ls e => ls.erase (e, id))
      (st.listeners ++ recognizedEvents.map (fun e => (e, id))) = st.listeners
    exact erase_foldl_cancel id recognizedEvents st.listeners hfresh
  refine ⟨fun e he => count_fresh_listener st id t hfresh e he, rfl, hdeact, fun hempty => ?_⟩
  refine ⟨hdeact.trans hempty, fun e he => ?_, fun e p => ?_⟩
  · show ((st.listeners ++ recognizedEvents.map (fun x => (x, id))).filter
      (fun p => p.1 == e)).length = 1
    rw [hempty, List.nil_append]
    exact filter_name_once id e he
  · exact emit_of_no_listeners e p _ (hdeact.trans hempty)

/-- Claim C1 witness: activation 0 over the empty listener map, with the
server not transferring. -/
theorem claim_C1_witness :
    (∀ e ∈ recognizedEvents,
      (activate 0 false ⟨[], ["prior"], []⟩).listeners.count (e, 0) = 1) ∧
    (activate 0 false ⟨[], ["prior"], []⟩).sent = [SEND_LOGS] ∧
    (deactivate 0 (activate 0 false ⟨[], ["prior"], []⟩)).listeners = [] ∧
    (∀ e p, emit e p (deactivate 0 (activate 0 false ⟨[], ["prior"], []⟩)) =
      deactivate 0 (activate 0 false ⟨[], ["prior"], []⟩)) := by
  have h := claim_C1 ⟨[], ["prior"], []⟩ 0 false (by simp)
  have h2 := h.2.2.2 rfl
  exact ⟨h.1, h.2.1, h2.1, h2.2.2⟩

/-- Claim C2: on an activation (transition into connected-with-instance),
the visible buffer is preserved exactly when the server is mid-transfer and
cleared in full exactly when it is not; equivalently the effect trace
contains a clear action iff `isTransferring` is false. -/
theorem claim_C2 (st : RouterState) (id : Nat) :
    (activate id true st).buffer = st.buffer ∧
    (activate id false st).buffer = [] ∧
    (∀ t : Bool, (activate id t st).buffer = if t then st.buffer else []) ∧
    (∀ t : Bool, Action.clearBuffer ∈ effectBody true true t ↔ t = false) := by
  refine ⟨rfl, rfl, fun t => rfl, fun t => ?_⟩
  cases t <;> decide

/-- Claim C2 witness: a concrete three-line buffer is kept on a transferring
reconnect and emptied on a normal reconnect. -/
theorem claim_C2_witness :
    (activate 0 true ⟨[], ["l1", "l2", "l3"], []⟩).buffer = ["l1", "l2", "l3"] ∧
    (activate 0 false ⟨[], ["l1", "l2", "l3"], []⟩).buffer = [] := by
  have h := claim_C2 ⟨[], ["l1", "l2", "l3"], []⟩ 0
  exact ⟨h.1, h.2.1⟩

theorem effectBody_order_aux (t : Bool) :
    ∀ i j : Fin (effectBody true true t).length,
      ((((effectBody true true t).get i).isClear →
        (((effectBody true true t).get j).isAdd ∨
          ((effectBody true true t).get j).isSend) → (i : Nat) < (j : Nat)) ∧
       (((effectBody true true t).get i).isAdd →
        ((effectBody true true t).get j).isSend → (i : Nat) < (j : Nat))) := by
  cases t <;> decide

/-- Claim C9: in the side-effect trace of an activation, every buffer clear
precedes every handler registration and every outbound request, and every
handler registration precedes the replay-logs request, which is the last
action of the trace. -/
theorem claim_C9 (t : Bool) (i j : Nat)
    (hi : i < (effectBody true true t).length)
    (hj : j < (effectBody true true t).length) :
    ((((effectBody true true t).get ⟨i, hi⟩).isClear →
      (((effectBody true true t).get ⟨j, hj⟩).isAdd ∨
        ((effectBody true true t).get ⟨j, hj⟩).isSend) → i < j) ∧
     (((effectBody true true t).get ⟨i, hi⟩).isAdd →
      ((effectBody true true t).get ⟨j, hj⟩).isSend → i < j)) ∧
    (effectBody true true t).getLast? = some (Action.sendRequest SEND_LOGS) := by
  refine ⟨effectBody_order_aux t ⟨i, hi⟩ ⟨j, hj⟩, ?_⟩
  cases t <;> decide

/-- Claim C9 witness: in the non-transferring activation trace, the clear at
index 0 precedes the registration at index 1. -/
theorem claim_C9_witness :
    (effectBody true true false).length = 9 ∧ (0 : Nat) < 1 := by
  refine ⟨by decide, ?_⟩
  exact ((claim_C9 false 0 1 (by decide) (by decide)).1).1 (by decide) (Or.inl (by decide))

end Panel
